import Mathlib

/-!
Verification development for the Milhouse run-orchestration subsystem.

The definitions below are a shallow embedding of the repository's code:

* the plan/build loop engine of `src/codexRun.ts` (`main`, `parseArgs`,
  `readTextIfExists`, the completion-marker regex test
  `/STATUS:\s*DONE\b/.test(planText)`, the `thread_id` handle file protocol);
* the run supervisor, session registry and log broadcaster of the web server
  (`startSession`, the child `exit` handler, `broadcast`, the `/api/events`
  subscription handler, and the `stateDir` derivation
  `path.join(stateBaseDir, Buffer.from(workdir).toString("base64url"))`).

Paths are modelled as byte lists (`List Nat`, each entry `< 256`), strings as
Lean `String`, JS numbers that hold iteration budgets as `Int`, timestamps and
generated session identifiers as `Nat`.  File reads that tolerate absence are
modelled with `Option`.  The external turn executor is an environment: a
function from the turn index to the returned conversation handle, plus a
function giving the plan-artifact file content observed after each build turn.
-/

/-! ## Completion marker: the regex `/STATUS:\s*DONE\b/` of codexRun.ts -/

/-- JS regex `\s` character class (ECMAScript WhiteSpace ∪ LineTerminator). -/
def jsWhitespace (c : Char) : Bool :=
  c == ' ' || c == '\t' || c == '\n' || c == '\r' ||
  c == '\u000B' || c == '\u000C' || c == '\u00A0' || c == '\u1680' ||
  (0x2000 ≤ c.toNat && c.toNat ≤ 0x200A) ||
  c == '\u2028' || c == '\u2029' || c == '\u202F' || c == '\u205F' ||
  c == '\u3000' || c == '\uFEFF'

/-- JS regex word character (`\w`, used by the `\b` boundary): `[A-Za-z0-9_]`. -/
def wordChar (c : Char) : Bool :=
  c.isAlpha || c.isDigit || c == '_'

/-- The `\b` assertion after `DONE`: end of input or a non-word character. -/
def boundaryOk : List Char → Bool
  | [] => true
  | c :: _ => !wordChar c

/-- Matches `DONE\b` at the head of the character list. -/
def doneTail (cs : List Char) : Bool :=
  match cs with
  | c1 :: c2 :: c3 :: c4 :: rest =>
      c1 == 'D' && c2 == 'O' && c3 == 'N' && c4 == 'E' && boundaryOk rest
  | _ => false

/-- Matches `\s*DONE\b` at the head of the list.  Because `D` is not a
whitespace character, the regex engine's greedy `\s*` with backtracking is
equivalent to skipping the maximal whitespace run. -/
def skipWsThenDone : List Char → Bool
  | [] => false
  | c :: rest => if jsWhitespace c then skipWsThenDone rest else doneTail (c :: rest)

/-- Matches `STATUS:\s*DONE\b` anchored at the head of the list. -/
def statusHere (cs : List Char) : Bool :=
  match cs with
  | c1 :: c2 :: c3 :: c4 :: c5 :: c6 :: c7 :: rest =>
      c1 == 'S' && c2 == 'T' && c3 == 'A' && c4 == 'T' && c5 == 'U' &&
      c6 == 'S' && c7 == ':' && skipWsThenDone rest
  | _ => false

/-- Unanchored regex search, as `RegExp.prototype.test` performs: try the
anchored match at every position. -/
def scanStatus : List Char → Bool
  | [] => false
  | c :: rest => statusHere (c :: rest) || scanStatus rest

/-- `/STATUS:\s*DONE\b/.test planText` from `codexRun.ts`. -/
def planIsDone (s : String) : Bool :=
  scanStatus s.data

/-- `readTextIfExists(planPath) ?? ""`: an absent plan file is empty content. -/
def planRead (content : Option String) : String :=
  content.getD ""

/-- `needle` occurs at the head of `hay`. -/
def headMatches : List Char → List Char → Bool
  | [], _ => true
  | _ :: _, [] => false
  | a :: as, b :: bs => a == b && headMatches as bs

/-- `needle` occurs as a contiguous subsequence of `hay` (literal substring,
the spec's notion of "contains the literal substring STATUS: DONE"). -/
def containsSeq (needle : List Char) : List Char → Bool
  | [] => headMatches needle []
  | c :: rest => headMatches needle (c :: rest) || containsSeq needle rest

/-- Declarative reading of the completion marker the code actually checks:
somewhere in the content, the characters `STATUS:` are followed by zero or
more JS-whitespace characters, then `DONE`, then a word boundary. -/
def SpecDoneMarker (s : String) : Prop :=
  ∃ pre ws post,
    s.data = pre ++ 'S' :: 'T' :: 'A' :: 'T' :: 'U' :: 'S' :: ':' ::
      (ws ++ 'D' :: 'O' :: 'N' :: 'E' :: post) ∧
    (∀ c ∈ ws, jsWhitespace c = true) ∧ boundaryOk post = true

/-! ## The loop engine of `codexRun.ts` (`main`)

The external collaborator (turn executor and the agent's writes to the plan
artifact) is an environment: `planResult` is the conversation handle returned
by the one-shot plan turn, `buildResults k` the handle returned by the `k`-th
build turn (0-based), and `plans k` the content of `IMPLEMENTATION_PLAN.md`
(`none` = absent) at the moment it is re-read right after the `k`-th build
turn. -/

structure LoopEnv where
  planResult : Option String
  buildResults : Nat → Option String
  plans : Nat → Option String

/-- JS truthiness of a `string | null` value: non-null and non-empty.  This is
the condition `if (result.threadId)` guarding every write of the handle file. -/
def jsTruthy : Option String → Bool
  | some t => !(t == "")
  | none => false

/-- The handle-file update performed after a turn: overwrite the file when the
returned handle is truthy, otherwise leave the file untouched. -/
def writeHandle (file res : Option String) : Option String :=
  if jsTruthy res then res else file

/-- JS `String.prototype.trim`: strip leading and trailing characters of the
ECMAScript `TrimWhiteSpace` set (the same set as the regex `\s` class). -/
def jsTrim (s : String) : String :=
  ⟨((s.data.dropWhile jsWhitespace).reverse.dropWhile jsWhitespace).reverse⟩

/-- `readTextIfExists(threadFile)?.trim()` followed by `tid || undefined`:
an absent file, or content that trims to the empty string, yields no handle. -/
def readHandle : Option String → Option String
  | none => none
  | some s => if jsTrim s = "" then none else some (jsTrim s)

/-- The `thread: <id>` stdout announcement emitted together with each
handle-file write. -/
def threadOut (res : Option String) : List String :=
  if jsTruthy res then ["thread: " ++ res.getD ""] else []

/-- The `================ LOOP n ================` boundary marker line. -/
def loopLine (n : Nat) : String :=
  "================ LOOP " ++ toString n ++ " ================"

/-- Observable state of one engine run: the JS `iter` counter, the number of
executed build turns, the number of writes of `build_out.log` (one per turn),
the content of the `thread_id` file (`none` = absent), the conversation handle
passed to each build turn in order, and the stdout lines emitted so far. -/
structure LoopState where
  iter : Nat
  turns : Nat
  buildOutWrites : Nat
  threadFile : Option String
  handlesUsed : List (Option String)
  out : List String
deriving DecidableEq

/-- How one engine run ended. -/
inductive LoopExit
  /-- `break` after `Plan marked DONE. Exiting.` (normal completion). -/
  | done
  /-- `break` after `Reached max iterations: n` (iteration budget exhausted). -/
  | maxedOut
  /-- the modelling fuel ran out while the loop was still going. -/
  | fuelOut
deriving DecidableEq

structure LoopRes where
  state : LoopState
  exit : LoopExit
deriving DecidableEq

/-- One build turn: read the handle file into `tid`, run the turn, write
`build_out.log`, conditionally persist the returned handle and announce it. -/
def turnState (env : LoopEnv) (st : LoopState) : LoopState :=
  { st with
    turns := st.turns + 1
    buildOutWrites := st.buildOutWrites + 1
    threadFile := writeHandle st.threadFile (env.buildResults st.turns)
    handlesUsed := st.handlesUsed ++ [readHandle st.threadFile]
    out := st.out ++ threadOut (env.buildResults st.turns) }

/-- The state entering the next pass when the plan is not done:
`iter += 1` and the loop-boundary marker line. -/
def contState (env : LoopEnv) (st : LoopState) : LoopState :=
  { turnState env st with
    iter := st.iter + 1
    out := (turnState env st).out ++ [loopLine (st.iter + 1)] }

/-- The `while (true)` loop of `main` in `codexRun.ts`, with explicit fuel.
Each unfolding mirrors one pass: check the iteration cap
(`maxIterations > 0 && iter >= maxIterations`), execute one build turn,
re-read the plan artifact (absent = empty) and test the completion regex to
stop, else `iter += 1`, emit the loop marker and repeat. -/
def loopGo (mi : Int) (env : LoopEnv) : Nat → LoopState → LoopRes
  | 0, st => ⟨st, .fuelOut⟩
  | fuel + 1, st =>
    if 0 < mi ∧ mi ≤ (st.iter : Int) then
      ⟨{ st with out := st.out ++ ["Reached max iterations: " ++ toString mi] }, .maxedOut⟩
    else if planIsDone (planRead (env.plans st.turns)) then
      ⟨{ turnState env st with
          out := (turnState env st).out ++ ["Plan marked DONE. Exiting."] }, .done⟩
    else
      loopGo mi env fuel (contState env st)

/-- `main` from the plan turn onwards: persist the plan turn's handle when
truthy (the file may pre-exist from an earlier run in the same state
directory, hence `initFile`), then enter the build loop with `iter = 0`. -/
def runMain (mi : Int) (env : LoopEnv) (initFile : Option String) (fuel : Nat) : LoopRes :=
  loopGo mi env fuel
    { iter := 0
      turns := 0
      buildOutWrites := 0
      threadFile := writeHandle initFile env.planResult
      handlesUsed := []
      out := threadOut env.planResult }

/-- The handle-file content after the first `n` build turns, starting from the
post-plan-turn content `file`: fold of the conditional overwrite. -/
def foldFile (file : Option String) (res : Nat → Option String) : Nat → Option String
  | 0 => file
  | n + 1 => writeHandle (foldFile file res n) (res n)

/-- The list of handles returned by build turns `0 .. n-1`. -/
def resultsList (res : Nat → Option String) (n : Nat) : List (Option String) :=
  (List.range n).map res

/-- The most recent truthy (non-null, non-empty) handle in `rs`, or `init`
when there is none. -/
def lastTruthy (init : Option String) (rs : List (Option String)) : Option String :=
  match (rs.filter jsTruthy).getLast? with
  | some x => x
  | none => init

/-- The most recent non-null handle in `rs` (the spec-claim's notion, which
ignores emptiness): the last `some` entry, if any. -/
def lastSome (rs : List (Option String)) : Option String :=
  (rs.filterMap id).getLast?

/-! ## The `stateDir` derivation

`startSession` computes
`stateDir = path.join(stateBaseDir, Buffer.from(workdir).toString("base64url"))`.
`Buffer.from` yields the workdir's bytes, so paths are byte lists here, and
`base64url` is RFC 4648 §5 base64 with the URL-safe alphabet and no padding
(Node's `base64url` encoding).  `path.join` on the flat, slash-free encoded
name appends it after a separator (byte 47, `/`). -/

/-- The base64url alphabet `A-Z a-z 0-9 - _`, as byte values. -/
def b64Alphabet : List Nat :=
  "ABCDEFGHIJKLMNOPQRSTUVWXYZabcdefghijklmnopqrstuvwxyz0123456789-_".data.map Char.toNat

/-- Byte value of the base64url digit for a 6-bit group. -/
def b64CharN (n : Nat) : Nat :=
  b64Alphabet.getD n 0

/-- base64url encoding of a byte list, 3 bytes to 4 digits, final partial
group of 1 or 2 bytes to 2 or 3 digits, no padding. -/
def encodeB64 : List Nat → List Nat
  | [] => []
  | [b1] => [b64CharN (b1 / 4), b64CharN (b1 % 4 * 16)]
  | [b1, b2] => [b64CharN (b1 / 4), b64CharN (b1 % 4 * 16 + b2 / 16), b64CharN (b2 % 16 * 4)]
  | b1 :: b2 :: b3 :: rest =>
      b64CharN (b1 / 4) :: b64CharN (b1 % 4 * 16 + b2 / 16) ::
      b64CharN (b2 % 16 * 4 + b3 / 64) :: b64CharN (b3 % 64) :: encodeB64 rest

/-- Index of a byte in the base64url alphabet (inverse digit map). -/
def b64Val (c : Nat) : Nat :=
  b64Alphabet.indexOf c

/-- base64url decoding, the inverse witnessing that the encoding is
reversible. -/
def decodeB64 : List Nat → List Nat
  | [] => []
  | [_] => []
  | [c1, c2] => [b64Val c1 * 4 + b64Val c2 / 16]
  | [c1, c2, c3] => [b64Val c1 * 4 + b64Val c2 / 16, b64Val c2 % 16 * 16 + b64Val c3 / 4]
  | c1 :: c2 :: c3 :: c4 :: rest =>
      (b64Val c1 * 4 + b64Val c2 / 16) :: (b64Val c2 % 16 * 16 + b64Val c3 / 4) ::
      (b64Val c3 % 4 * 64 + b64Val c4) :: decodeB64 rest

/-- `path.join(stateBaseDir, Buffer.from(workdir).toString("base64url"))`. -/
def stateDirFor (base workdir : List Nat) : List Nat :=
  base ++ 47 :: encodeB64 workdir

/-! ## The run supervisor, session registry and log broadcaster -/

/-- `SessionStatus` of the server: `running | succeeded | failed | stopped`. -/
inductive SessionStatus
  | running
  | succeeded
  | failed
  | stopped
deriving DecidableEq

/-- A Session Record as stored in `sessions.json` and held in
`currentSession`.  Identifiers (`randomUUID`) are modelled as naturals drawn
from a monotone counter, timestamps (`new Date().toISOString()`) as naturals
supplied with each event. -/
structure SessionRecord where
  id : Nat
  goal : String
  maxIterations : Int
  workdir : List Nat
  stateDir : List Nat
  startedAt : Nat
  endedAt : Option Nat
  status : SessionStatus
  threadId : Option String
deriving DecidableEq

/-- Log Broadcaster state: the `logBuffer` plus the connected SSE clients,
each with the identifier from its subscription and the lines written to its
response stream so far. -/
structure BState where
  buffer : List String
  clients : List (Nat × List String)
deriving DecidableEq

/-- `broadcast(line)`: append to `logBuffer`, then write the line to every
connected client. -/
def broadcast (st : BState) (line : String) : BState :=
  ⟨st.buffer ++ [line], st.clients.map (fun c => (c.1, c.2 ++ [line]))⟩

/-- The `/api/events` handler: register the new client, then replay the whole
current buffer to it.  On the single-threaded event loop no publish can
interleave between registration and replay, so the two are one atomic step. -/
def subscribeClient (st : BState) (cid : Nat) : BState :=
  ⟨st.buffer, st.clients ++ [(cid, st.buffer)]⟩

/-- The lines delivered so far to the client with identifier `cid`. -/
def clientView (st : BState) (cid : Nat) : Option (List String) :=
  (st.clients.find? (fun c => c.1 == cid)).map (fun c => c.2)

/-- Supervisor configuration fixed at server construction: the default
workdir and the state base directory. -/
structure SupConfig where
  defaultWorkdir : List Nat
  stateBase : List Nat

/-- In-memory and durable state of one server: `child` (is a child process
attached), `currentSession`, the parsed content of the durable `sessions.json`
document, the broadcaster, the set of existing directories (the file system
visible to `existsSync`/`mkdirSync`), and the UUID-freshness counter. -/
structure SupState where
  child : Bool
  currentSession : Option SessionRecord
  registry : List SessionRecord
  bstate : BState
  dirs : List (List Nat)
  nextId : Nat
deriving DecidableEq

/-- `path.isAbsolute` for POSIX byte paths: starts with `/`. -/
def isAbsolutePath (p : List Nat) : Bool :=
  match p with
  | 47 :: _ => true
  | _ => false

/-- `normalizeWorkdir`: absent input falls back to the default workdir,
absolute input is used as is, relative input is resolved against the default
workdir. -/
def normalizeWorkdir (cfg : SupConfig) (input : Option (List Nat)) : List Nat :=
  match input with
  | none => cfg.defaultWorkdir
  | some p => if isAbsolutePath p then p else cfg.defaultWorkdir ++ 47 :: p

/-- The recoverable `start` failures of the error taxonomy. -/
inductive StartError
  | alreadyRunning
  | workdirNotFound
deriving DecidableEq

def startRunLine : String := "[milhouse] Starting run…"

def workdirLine (workdir : List Nat) : String :=
  "[milhouse] workdir: " ++ toString workdir

def stateDirLine (stateDir : List Nat) : String :=
  "[milhouse] state dir: " ++ toString stateDir

/-- The fresh `running` record appended by a successful `startSession`: a new
id, the caller's goal and budget, the resolved workdir, the derived state
directory, `startedAt` now and no `endedAt`. -/
def startRecord (cfg : SupConfig) (st : SupState) (goal : String) (mi : Int)
    (wdInput : Option (List Nat)) (now : Nat) : SessionRecord :=
  { id := st.nextId
    goal := goal
    maxIterations := mi
    workdir := normalizeWorkdir cfg wdInput
    stateDir := stateDirFor cfg.stateBase (normalizeWorkdir cfg wdInput)
    startedAt := now
    endedAt := none
    status := .running
    threadId := none }

/-- `logBuffer = []` followed by the three startup `broadcast` calls.  The
connected clients survive the buffer reset. -/
def startBState (st : SupState) (workdir stateDir : List Nat) : BState :=
  broadcast (broadcast (broadcast ⟨[], st.bstate.clients⟩ startRunLine)
    (workdirLine workdir)) (stateDirLine stateDir)

/-- The post-spawn supervisor state of a successful `startSession`, over the
directory set `dirs1` as it stands after the workdir existence check
(`mkdirSync(stateDir)` then adds the state directory). -/
def startOkState (cfg : SupConfig) (st : SupState) (goal : String) (mi : Int)
    (wdInput : Option (List Nat)) (now : Nat) (dirs1 : List (List Nat)) : SupState :=
  { child := true
    currentSession := some (startRecord cfg st goal mi wdInput now)
    registry := st.registry ++ [startRecord cfg st goal mi wdInput now]
    bstate := startBState st (normalizeWorkdir cfg wdInput)
      (stateDirFor cfg.stateBase (normalizeWorkdir cfg wdInput))
    dirs :=
      if stateDirFor cfg.stateBase (normalizeWorkdir cfg wdInput) ∈ dirs1 then dirs1
      else stateDirFor cfg.stateBase (normalizeWorkdir cfg wdInput) :: dirs1
    nextId := st.nextId + 1 }

/-- `startSession(goal, maxIterations, workdirInput, createIfMissing)`.
Mirrors the source order: refuse when a child is active; resolve the workdir;
if it does not exist, create it when `createIfMissing` else refuse; derive
`stateDir` and create it; reset the log buffer; generate an id; build the
`running` record; append it to the registry document; broadcast the three
startup lines; spawn the child.  On a refusal the state is returned
untouched. -/
def startSession (cfg : SupConfig) (st : SupState) (goal : String) (mi : Int)
    (wdInput : Option (List Nat)) (createIfMissing : Bool) (now : Nat) :
    Option StartError × SupState :=
  if st.child then
    (some .alreadyRunning, st)
  else if normalizeWorkdir cfg wdInput ∈ st.dirs then
    (none, startOkState cfg st goal mi wdInput now st.dirs)
  else if createIfMissing then
    (none, startOkState cfg st goal mi wdInput now (normalizeWorkdir cfg wdInput :: st.dirs))
  else (some .workdirNotFound, st)

/-- The terminal status chosen by the `exit` handler:
`code === 0 ? "succeeded" : signal === "SIGTERM" ? "stopped" : "failed"`. -/
def exitStatus (code : Option Int) (signal : Option String) : SessionStatus :=
  if code = some 0 then .succeeded
  else if signal = some "SIGTERM" then .stopped
  else .failed

def exitLine (code : Option Int) (signal : Option String) : String :=
  "[exit] code=" ++ (match code with | some n => toString n | none => "null") ++
  " signal=" ++ signal.getD "null"

/-- The child `exit` handler: broadcast the exit line; if a current session
exists, stamp its terminal status and `endedAt` and persist it into the
registry document by matching on `id`; clear the active-child reference.
When no child is attached there is no handler to fire, so the state is
unchanged. -/
def childExit (st : SupState) (code : Option Int) (signal : Option String)
    (now : Nat) : SupState :=
  if st.child then
    let b1 := broadcast st.bstate (exitLine code signal)
    match st.currentSession with
    | some c =>
        let c2 := { c with status := exitStatus code signal, endedAt := some now }
        { st with
          bstate := b1
          currentSession := some c2
          registry := st.registry.map (fun r => if r.id = c2.id then c2 else r)
          child := false }
    | none => { st with bstate := b1, child := false }
  else st

/-- The supervisor-visible events of one server instance: a `start` request
and a child `exit` notification. -/
inductive SupEvent
  | start (goal : String) (mi : Int) (wd : Option (List Nat)) (ci : Bool) (now : Nat)
  | exit (code : Option Int) (signal : Option String) (now : Nat)

def applyEvent (cfg : SupConfig) (st : SupState) : SupEvent → SupState
  | .start g mi wd ci now => (startSession cfg st g mi wd ci now).2
  | .exit code signal now => childExit st code signal now

def applyEvents (cfg : SupConfig) (st : SupState) (es : List SupEvent) : SupState :=
  es.foldl (applyEvent cfg) st

/-- A supervisor restart: the in-memory state (active child, current session,
log buffer, clients) is lost, while the durable registry document and the
file system survive.  `nextId` survives because it models the global
freshness of `randomUUID`. -/
def restartSup (st : SupState) : SupState :=
  { st with child := false, currentSession := none, bstate := ⟨[], []⟩ }

/-- A freshly constructed server over a file system that already has the
directories `dirs0`: no child, no current session, empty buffer, empty
registry document. -/
def initState (dirs0 : List (List Nat)) : SupState :=
  { child := false
    currentSession := none
    registry := []
    bstate := ⟨[], []⟩
    dirs := dirs0
    nextId := 0 }

/-- Number of records with `status = running` in a registry document. -/
def countRunning (rs : List SessionRecord) : Nat :=
  (rs.filter (fun r => r.status == SessionStatus.running)).length

/-- The supervisor invariant tied to one server instance: while a child is
attached the current session is a `running` record, it is the unique running
record in the registry document, and every running record carries its id;
with no child attached no record is running; and `endedAt` is present exactly
on non-`running` records. -/
def SupInv (st : SupState) : Prop :=
  (st.child = true → ∃ c, st.currentSession = some c ∧ c.status = .running ∧
    countRunning st.registry = 1 ∧
    (∀ r ∈ st.registry, r.status = .running → r.id = c.id)) ∧
  (st.child = false → countRunning st.registry = 0) ∧
  (∀ r ∈ st.registry, r.endedAt.isSome = true ↔ r.status ≠ .running)

theorem doneTail_iff (cs : List Char) :
    doneTail cs = true ↔ ∃ post, cs = 'D' :: 'O' :: 'N' :: 'E' :: post ∧ boundaryOk post = true := by
  constructor
  · intro h
    rcases cs with _ | ⟨c1, _ | ⟨c2, _ | ⟨c3, _ | ⟨c4, rest⟩⟩⟩⟩ <;>
        simp only [doneTail, Bool.and_eq_true, beq_iff_eq] at h <;>
      try exact Bool.noConfusion h
    obtain ⟨⟨⟨⟨h1, h2⟩, h3⟩, h4⟩, h5⟩ := h
    subst h1; subst h2; subst h3; subst h4
    exact ⟨rest, rfl, h5⟩
  · rintro ⟨post, rfl, hb⟩
    simpa [doneTail] using hb

theorem statusHere_iff (cs : List Char) :
    statusHere cs = true ↔ ∃ rest,
      cs = 'S' :: 'T' :: 'A' :: 'T' :: 'U' :: 'S' :: ':' :: rest ∧ skipWsThenDone rest = true := by
  constructor
  · intro h
    rcases cs with _ | ⟨c1, _ | ⟨c2, _ | ⟨c3, _ | ⟨c4, _ | ⟨c5, _ | ⟨c6, _ | ⟨c7, rest⟩⟩⟩⟩⟩⟩⟩ <;>
        simp only [statusHere, Bool.and_eq_true, beq_iff_eq] at h <;>
      try exact Bool.noConfusion h
    obtain ⟨⟨⟨⟨⟨⟨⟨h1, h2⟩, h3⟩, h4⟩, h5⟩, h6⟩, h7⟩, h8⟩ := h
    subst h1; subst h2; subst h3; subst h4; subst h5; subst h6; subst h7
    exact ⟨rest, rfl, h8⟩
  · rintro ⟨rest, rfl, hs⟩
    simpa [statusHere] using hs

theorem doneTail_skip (cs : List Char) (h : doneTail cs = true) : skipWsThenDone cs = true := by
  obtain ⟨post, rfl, hb⟩ := (doneTail_iff cs).mp h
  have hD : jsWhitespace 'D' = false := by decide
  rw [skipWsThenDone, if_neg (by simp [hD])]
  exact (doneTail_iff _).mpr ⟨post, rfl, hb⟩

theorem skipWsThenDone_iff (cs : List Char) :
    skipWsThenDone cs = true ↔ ∃ ws rest, cs = ws ++ rest ∧
      (∀ c ∈ ws, jsWhitespace c = true) ∧ doneTail rest = true := by
  constructor
  · intro h
    induction cs with
    | nil => simp [skipWsThenDone] at h
    | cons c r ih =>
      by_cases hw : jsWhitespace c = true
      · rw [skipWsThenDone, if_pos hw] at h
        obtain ⟨ws, rest, rfl, hws, hd⟩ := ih h
        exact ⟨c :: ws, rest, rfl, by simpa [hw] using hws, hd⟩
      · rw [skipWsThenDone, if_neg hw] at h
        exact ⟨[], c :: r, rfl, by simp, h⟩
  · rintro ⟨ws, rest, rfl, hws, hd⟩
    induction ws with
    | nil => simpa using doneTail_skip rest hd
    | cons w ws ih =>
      have hw : jsWhitespace w = true := hws w (by simp)
      rw [List.cons_append, skipWsThenDone, if_pos hw]
      exact ih (fun c hc => hws c (by simp [hc]))

theorem scanStatus_iff (cs : List Char) :
    scanStatus cs = true ↔ ∃ pre rest, cs = pre ++ rest ∧ statusHere rest = true := by
  constructor
  · intro h
    induction cs with
    | nil => simp [scanStatus] at h
    | cons c r ih =>
      rw [scanStatus, Bool.or_eq_true] at h
      rcases h with h | h
      · exact ⟨[], c :: r, rfl, h⟩
      · obtain ⟨pre, rest, rfl, hs⟩ := ih h
        exact ⟨c :: pre, rest, rfl, hs⟩
  · rintro ⟨pre, rest, rfl, hs⟩
    induction pre with
    | nil =>
      cases rest with
      | nil => simp [statusHere] at hs
      | cons c r => simp [scanStatus, hs]
    | cons c pre ih =>
      rw [List.cons_append, scanStatus, Bool.or_eq_true]
      exact Or.inr ih

theorem planIsDone_iff_SpecDoneMarker (s : String) :
    planIsDone s = true ↔ SpecDoneMarker s := by
  unfold planIsDone SpecDoneMarker
  rw [scanStatus_iff]
  constructor
  · rintro ⟨pre, rest, heq, hst⟩
    obtain ⟨rest2, rfl, hskip⟩ := (statusHere_iff rest).mp hst
    obtain ⟨ws, rest3, rfl, hws, hd⟩ := (skipWsThenDone_iff rest2).mp hskip
    obtain ⟨post, rfl, hb⟩ := (doneTail_iff rest3).mp hd
    exact ⟨pre, ws, post, heq, hws, hb⟩
  · rintro ⟨pre, ws, post, heq, hws, hb⟩
    refine ⟨pre, _, heq, ?_⟩
    exact (statusHere_iff _).mpr ⟨_, rfl, (skipWsThenDone_iff _).mpr
      ⟨ws, _, rfl, hws, (doneTail_iff _).mpr ⟨post, rfl, hb⟩⟩⟩

theorem headMatches_iff (needle hay : List Char) :
    headMatches needle hay = true ↔ ∃ post, hay = needle ++ post := by
  induction needle generalizing hay with
  | nil => simp [headMatches]
  | cons a as ih =>
    cases hay with
    | nil => simp [headMatches]
    | cons b bs =>
      rw [headMatches, Bool.and_eq_true, beq_iff_eq, ih]
      constructor
      · rintro ⟨rfl, post, rfl⟩; exact ⟨post, rfl⟩
      · rintro ⟨post, h⟩
        injection h with h1 h2
        exact ⟨h1.symm, post, h2⟩

theorem containsSeq_iff (needle hay : List Char) :
    containsSeq needle hay = true ↔ ∃ pre post, hay = pre ++ needle ++ post := by
  induction hay with
  | nil =>
    rw [containsSeq, headMatches_iff]
    constructor
    · rintro ⟨post, h⟩; exact ⟨[], post, by simpa using h⟩
    · rintro ⟨pre, post, h⟩
      have h2 := h.symm
      simp only [List.append_eq_nil] at h2
      exact ⟨[], by simp [h2.1.2]⟩
  | cons c r ih =>
    rw [containsSeq, Bool.or_eq_true, headMatches_iff, ih]
    constructor
    · rintro (⟨post, h⟩ | ⟨pre, post, h⟩)
      · exact ⟨[], post, by simpa using h⟩
      · exact ⟨c :: pre, post, by simp [h]⟩
    · rintro ⟨pre, post, h⟩
      cases pre with
      | nil => exact Or.inl ⟨post, by simpa using h⟩
      | cons p ps =>
        injection h with h1 h2
        exact Or.inr ⟨ps, post, h2⟩

@[simp] theorem turnState_iter (env : LoopEnv) (st : LoopState) :
    (turnState env st).iter = st.iter := rfl

@[simp] theorem turnState_turns (env : LoopEnv) (st : LoopState) :
    (turnState env st).turns = st.turns + 1 := rfl

@[simp] theorem turnState_buildOutWrites (env : LoopEnv) (st : LoopState) :
    (turnState env st).buildOutWrites = st.buildOutWrites + 1 := rfl

@[simp] theorem turnState_threadFile (env : LoopEnv) (st : LoopState) :
    (turnState env st).threadFile = writeHandle st.threadFile (env.buildResults st.turns) := rfl

@[simp] theorem turnState_handlesUsed (env : LoopEnv) (st : LoopState) :
    (turnState env st).handlesUsed = st.handlesUsed ++ [readHandle st.threadFile] := rfl

@[simp] theorem contState_iter (env : LoopEnv) (st : LoopState) :
    (contState env st).iter = st.iter + 1 := rfl

@[simp] theorem contState_turns (env : LoopEnv) (st : LoopState) :
    (contState env st).turns = st.turns + 1 := rfl

@[simp] theorem contState_buildOutWrites (env : LoopEnv) (st : LoopState) :
    (contState env st).buildOutWrites = st.buildOutWrites + 1 := rfl

@[simp] theorem contState_threadFile (env : LoopEnv) (st : LoopState) :
    (contState env st).threadFile = writeHandle st.threadFile (env.buildResults st.turns) := rfl

@[simp] theorem contState_handlesUsed (env : LoopEnv) (st : LoopState) :
    (contState env st).handlesUsed = st.handlesUsed ++ [readHandle st.threadFile] := rfl

theorem loopGo_turns_le (mi : Int) (env : LoopEnv) :
    ∀ (fuel : Nat) (st : LoopState), st.turns ≤ (loopGo mi env fuel st).state.turns := by
  intro fuel
  induction fuel with
  | zero => intro st; exact Nat.le_refl _
  | succ f ih =>
    intro st
    rw [loopGo]
    by_cases hcap : 0 < mi ∧ mi ≤ (st.iter : Int)
    · rw [if_pos hcap]
    · rw [if_neg hcap]
      by_cases hdone : planIsDone (planRead (env.plans st.turns)) = true
      · simp only [hdone, if_true]
        exact Nat.le_succ _
      · simp only [hdone, if_false, Bool.false_eq_true]
        have h := ih (contState env st)
        rw [contState_turns] at h
        exact Nat.le_of_succ_le h

theorem loopGo_done_turns (mi : Int) (env : LoopEnv) :
    ∀ (fuel : Nat) (st : LoopState), (loopGo mi env fuel st).exit = LoopExit.done →
      st.turns + 1 ≤ (loopGo mi env fuel st).state.turns := by
  intro fuel
  induction fuel with
  | zero => intro st h; exact absurd h (by simp [loopGo])
  | succ f ih =>
    intro st h
    rw [loopGo] at h ⊢
    by_cases hcap : 0 < mi ∧ mi ≤ (st.iter : Int)
    · rw [if_pos hcap] at h; exact absurd h (by simp)
    · rw [if_neg hcap] at h ⊢
      by_cases hdone : planIsDone (planRead (env.plans st.turns)) = true
      · simp only [hdone, if_true]
        exact Nat.le_refl _
      · simp only [hdone, if_false, Bool.false_eq_true] at h ⊢
        have h2 := ih (contState env st) h
        rw [contState_turns] at h2
        exact Nat.le_of_succ_le h2

theorem loopGo_maxedOut (n : Nat) (env : LoopEnv) (hn : 0 < n)
    (hnd : ∀ k, planIsDone (planRead (env.plans k)) = false) :
    ∀ (fuel : Nat) (st : LoopState), st.iter ≤ n → n - st.iter < fuel →
      (loopGo (n : Int) env fuel st).exit = LoopExit.maxedOut ∧
      (loopGo (n : Int) env fuel st).state.turns = st.turns + (n - st.iter) ∧
      ("Reached max iterations: " ++ toString (n : Int)) ∈ (loopGo (n : Int) env fuel st).state.out := by
  intro fuel
  induction fuel with
  | zero => intro st h1 h2; exact absurd h2 (Nat.not_lt_zero _)
  | succ f ih =>
    intro st h1 h2
    rcases Nat.lt_or_ge st.iter n with hlt | hge
    · have hcap : ¬(0 < (n : Int) ∧ (n : Int) ≤ (st.iter : Int)) := by
        rintro ⟨_, hc⟩
        have : n ≤ st.iter := by exact_mod_cast hc
        omega
      rw [loopGo, if_neg hcap]
      simp only [hnd st.turns, if_false, Bool.false_eq_true]
      have h3 := ih (contState env st) (by rw [contState_iter]; omega)
        (by rw [contState_iter]; omega)
      refine ⟨h3.1, ?_, h3.2.2⟩
      rw [h3.2.1, contState_turns, contState_iter]
      omega
    · have hiter : st.iter = n := Nat.le_antisymm h1 hge
      have hcap : 0 < (n : Int) ∧ (n : Int) ≤ (st.iter : Int) := by
        constructor
        · exact_mod_cast hn
        · exact_mod_cast Nat.le_of_eq hiter.symm
      rw [loopGo, if_pos hcap]
      refine ⟨rfl, by simp [hiter], ?_⟩
      exact List.mem_append_right _ (List.mem_singleton.mpr rfl)

theorem loopGo_unbounded (mi : Int) (env : LoopEnv) (hmi : mi ≤ 0) :
    ∀ (fuel : Nat) (st : LoopState),
      (loopGo mi env fuel st).exit ≠ LoopExit.maxedOut ∧
      ((loopGo mi env fuel st).exit = LoopExit.done →
        planIsDone (planRead (env.plans ((loopGo mi env fuel st).state.turns - 1))) = true) ∧
      ((∀ k, planIsDone (planRead (env.plans k)) = false) →
        (loopGo mi env fuel st).exit = LoopExit.fuelOut) := by
  intro fuel
  induction fuel with
  | zero =>
    intro st
    exact ⟨by simp [loopGo], by simp [loopGo], fun _ => rfl⟩
  | succ f ih =>
    intro st
    have hcap : ¬(0 < mi ∧ mi ≤ (st.iter : Int)) := by rintro ⟨h1, _⟩; omega
    rw [loopGo, if_neg hcap]
    by_cases hdone : planIsDone (planRead (env.plans st.turns)) = true
    · simp only [hdone, if_true]
      refine ⟨by simp, fun _ => ?_, fun hall => absurd hdone (by simp [hall st.turns])⟩
      simpa using hdone
    · simp only [hdone, if_false, Bool.false_eq_true]
      exact ih (contState env st)

theorem foldFile_eq_lastTruthy (init : Option String) (res : Nat → Option String) :
    ∀ n : Nat, foldFile init res n = lastTruthy init (resultsList res n) := by
  intro n
  induction n with
  | zero => rfl
  | succ k ih =>
    rw [foldFile, ih]
    unfold lastTruthy resultsList
    rw [List.range_succ, List.map_append, List.filter_append]
    by_cases ht : jsTruthy (res k) = true
    · rw [writeHandle, if_pos ht]
      simp [List.filter, ht, List.getLast?_concat]
    · rw [writeHandle, if_neg ht]
      simp [List.filter, ht]

theorem lastTruthy_isSome (init : Option String) (rs : List (Option String)) (t : String)
    (h : init = some t) : ∃ u, lastTruthy init rs = some u := by
  unfold lastTruthy
  cases hg : (rs.filter jsTruthy).getLast? with
  | none => exact ⟨t, by rw [h]⟩
  | some x =>
    have hx : x ∈ rs.filter jsTruthy := by
      obtain ⟨hne, hxe⟩ := List.mem_getLast?_eq_getLast (Option.mem_def.mpr hg)
      rw [hxe]
      exact List.getLast_mem hne
    have hxt := (List.mem_filter.mp hx).2
    cases x with
    | none => simp [jsTruthy] at hxt
    | some u => exact ⟨u, rfl⟩

theorem loopGo_handles (mi : Int) (env : LoopEnv) (f0 : Option String) :
    ∀ (fuel : Nat) (st : LoopState),
      st.threadFile = foldFile f0 env.buildResults st.turns →
      st.handlesUsed.length = st.turns →
      (∀ k, k < st.turns →
        st.handlesUsed.get? k = some (readHandle (foldFile f0 env.buildResults k))) →
      (loopGo mi env fuel st).state.threadFile
          = foldFile f0 env.buildResults (loopGo mi env fuel st).state.turns ∧
      (loopGo mi env fuel st).state.handlesUsed.length = (loopGo mi env fuel st).state.turns ∧
      (∀ k, k < (loopGo mi env fuel st).state.turns →
        (loopGo mi env fuel st).state.handlesUsed.get? k
          = some (readHandle (foldFile f0 env.buildResults k))) := by
  intro fuel
  induction fuel with
  | zero => intro st h1 h2 h3; exact ⟨h1, h2, h3⟩
  | succ f ih =>
    intro st h1 h2 h3
    rw [loopGo]
    by_cases hcap : 0 < mi ∧ mi ≤ (st.iter : Int)
    · rw [if_pos hcap]; exact ⟨h1, h2, h3⟩
    · rw [if_neg hcap]
      have t1 : (turnState env st).threadFile
          = foldFile f0 env.buildResults (turnState env st).turns := by
        rw [turnState_threadFile, turnState_turns, foldFile, h1]
      have t2 : (turnState env st).handlesUsed.length = (turnState env st).turns := by
        rw [turnState_handlesUsed, turnState_turns, List.length_append, h2]
        rfl
      have t3 : ∀ k, k < (turnState env st).turns →
          (turnState env st).handlesUsed.get? k
            = some (readHandle (foldFile f0 env.buildResults k)) := by
        intro k hk
        rw [turnState_turns] at hk
        rw [turnState_handlesUsed]
        rcases Nat.lt_or_ge k st.turns with hk2 | hk2
        · rw [List.get?_append (h2 ▸ hk2)]
          exact h3 k hk2
        · have hke : k = st.turns := by omega
          subst hke
          rw [← h2, List.get?_concat_length, h2, h1]
      by_cases hdone : planIsDone (planRead (env.plans st.turns)) = true
      · rw [if_pos hdone]
        exact ⟨t1, t2, t3⟩
      · rw [if_neg hdone]
        exact ih (contState env st) t1 t2 t3

theorem b64Val_b64CharN_fin : ∀ m : Fin 64, b64Val (b64CharN m.val) = m.val := by decide

theorem b64Val_b64CharN (m : Nat) (h : m < 64) : b64Val (b64CharN m) = m :=
  b64Val_b64CharN_fin ⟨m, h⟩

theorem decodeB64_encodeB64 :
    ∀ (n : Nat) (w : List Nat), w.length ≤ n → (∀ b ∈ w, b < 256) →
      decodeB64 (encodeB64 w) = w := by
  intro n
  induction n with
  | zero =>
    intro w hl _
    have hw : w = [] := List.length_eq_zero.mp (Nat.le_zero.mp hl)
    subst hw; rfl
  | succ n ih =>
    intro w hl hb
    rcases w with _ | ⟨b1, _ | ⟨b2, _ | ⟨b3, rest⟩⟩⟩
    · rfl
    · have h1 : b1 < 256 := hb b1 (by simp)
      simp only [encodeB64, decodeB64]
      rw [b64Val_b64CharN (b1 / 4) (by omega), b64Val_b64CharN (b1 % 4 * 16) (by omega)]
      have e1 : b1 / 4 * 4 + b1 % 4 * 16 / 16 = b1 := by omega
      rw [e1]
    · have h1 : b1 < 256 := hb b1 (by simp)
      have h2 : b2 < 256 := hb b2 (by simp)
      simp only [encodeB64, decodeB64]
      rw [b64Val_b64CharN (b1 / 4) (by omega), b64Val_b64CharN (b1 % 4 * 16 + b2 / 16) (by omega),
        b64Val_b64CharN (b2 % 16 * 4) (by omega)]
      have e1 : b1 / 4 * 4 + (b1 % 4 * 16 + b2 / 16) / 16 = b1 := by omega
      have e2 : (b1 % 4 * 16 + b2 / 16) % 16 * 16 + b2 % 16 * 4 / 4 = b2 := by omega
      rw [e1, e2]
    · have h1 : b1 < 256 := hb b1 (by simp)
      have h2 : b2 < 256 := hb b2 (by simp)
      have h3 : b3 < 256 := hb b3 (by simp)
      simp only [encodeB64, decodeB64]
      rw [b64Val_b64CharN (b1 / 4) (by omega), b64Val_b64CharN (b1 % 4 * 16 + b2 / 16) (by omega),
        b64Val_b64CharN (b2 % 16 * 4 + b3 / 64) (by omega), b64Val_b64CharN (b3 % 64) (by omega)]
      have e1 : b1 / 4 * 4 + (b1 % 4 * 16 + b2 / 16) / 16 = b1 := by omega
      have e2 : (b1 % 4 * 16 + b2 / 16) % 16 * 16 + (b2 % 16 * 4 + b3 / 64) / 4 = b2 := by omega
      have e3 : (b2 % 16 * 4 + b3 / 64) % 4 * 64 + b3 % 64 = b3 := by omega
      rw [e1, e2, e3]
      have hlr : rest.length ≤ n := by
        simp only [List.length_cons] at hl
        omega
      rw [ih rest hlr (fun b hbm => hb b (by simp [hbm]))]

theorem encodeB64_inj (w1 w2 : List Nat) (h1 : ∀ b ∈ w1, b < 256) (h2 : ∀ b ∈ w2, b < 256)
    (he : encodeB64 w1 = encodeB64 w2) : w1 = w2 := by
  have d1 := decodeB64_encodeB64 w1.length w1 (Nat.le_refl _) h1
  have d2 := decodeB64_encodeB64 w2.length w2 (Nat.le_refl _) h2
  rw [← d1, ← d2, he]

theorem exitStatus_ne_running (code : Option Int) (sig : Option String) :
    exitStatus code sig ≠ SessionStatus.running := by
  unfold exitStatus
  split
  · decide
  split
  · decide
  · decide

theorem countRunning_append (rs1 rs2 : List SessionRecord) :
    countRunning (rs1 ++ rs2) = countRunning rs1 + countRunning rs2 := by
  simp [countRunning, List.filter_append]

theorem countRunning_eq_zero_iff (rs : List SessionRecord) :
    countRunning rs = 0 ↔ ∀ r ∈ rs, r.status ≠ SessionStatus.running := by
  simp [countRunning, List.length_eq_zero, List.filter_eq_nil]

theorem supInv_init (dirs0 : List (List Nat)) : SupInv (initState dirs0) := by
  refine ⟨?_, ?_, ?_⟩ <;> simp [initState, countRunning]


@[simp] theorem startRecord_status (cfg : SupConfig) (st : SupState) (g : String) (mi : Int)
    (wd : Option (List Nat)) (now : Nat) :
    (startRecord cfg st g mi wd now).status = SessionStatus.running := rfl

@[simp] theorem startRecord_endedAt (cfg : SupConfig) (st : SupState) (g : String) (mi : Int)
    (wd : Option (List Nat)) (now : Nat) :
    (startRecord cfg st g mi wd now).endedAt = none := rfl

@[simp] theorem startOkState_child (cfg : SupConfig) (st : SupState) (g : String) (mi : Int)
    (wd : Option (List Nat)) (now : Nat) (dirs1 : List (List Nat)) :
    (startOkState cfg st g mi wd now dirs1).child = true := rfl

@[simp] theorem startOkState_currentSession (cfg : SupConfig) (st : SupState) (g : String)
    (mi : Int) (wd : Option (List Nat)) (now : Nat) (dirs1 : List (List Nat)) :
    (startOkState cfg st g mi wd now dirs1).currentSession
      = some (startRecord cfg st g mi wd now) := rfl

@[simp] theorem startOkState_registry (cfg : SupConfig) (st : SupState) (g : String)
    (mi : Int) (wd : Option (List Nat)) (now : Nat) (dirs1 : List (List Nat)) :
    (startOkState cfg st g mi wd now dirs1).registry
      = st.registry ++ [startRecord cfg st g mi wd now] := rfl

theorem supInv_startOk (cfg : SupConfig) (st : SupState) (g : String) (mi : Int)
    (wd : Option (List Nat)) (now : Nat) (dirs1 : List (List Nat))
    (h : SupInv st) (hzero : countRunning st.registry = 0) :
    SupInv (startOkState cfg st g mi wd now dirs1) := by
  have hnone : ∀ r ∈ st.registry, r.status ≠ SessionStatus.running :=
    (countRunning_eq_zero_iff _).mp hzero
  refine ⟨?_, ?_, ?_⟩
  · intro _
    refine ⟨startRecord cfg st g mi wd now, by simp, by simp, ?_, ?_⟩
    · rw [startOkState_registry, countRunning_append, hzero]
      rfl
    · intro r hr hrun
      rw [startOkState_registry] at hr
      rcases List.mem_append.mp hr with hr | hr
      · exact absurd hrun (hnone r hr)
      · rw [List.mem_singleton.mp hr]
  · intro hfalse
    rw [startOkState_child] at hfalse
    exact absurd hfalse (by simp)
  · intro r hr
    rw [startOkState_registry] at hr
    rcases List.mem_append.mp hr with hr | hr
    · exact h.2.2 r hr
    · rw [List.mem_singleton.mp hr]
      simp

theorem supInv_start (cfg : SupConfig) (st : SupState) (g : String) (mi : Int)
    (wd : Option (List Nat)) (ci : Bool) (now : Nat) (h : SupInv st) :
    SupInv (startSession cfg st g mi wd ci now).2 := by
  unfold startSession
  by_cases hc : st.child = true
  · rw [if_pos hc]; exact h
  · rw [if_neg hc]
    have hzero := h.2.1 (by simpa using hc)
    by_cases hmem : normalizeWorkdir cfg wd ∈ st.dirs
    · rw [if_pos hmem]
      exact supInv_startOk cfg st g mi wd now st.dirs h hzero
    · rw [if_neg hmem]
      by_cases hci : ci = true
      · rw [if_pos hci]
        exact supInv_startOk cfg st g mi wd now _ h hzero
      · rw [if_neg hci]
        exact h

theorem supInv_exit (st : SupState) (code : Option Int) (sig : Option String) (now : Nat)
    (h : SupInv st) : SupInv (childExit st code sig now) := by
  unfold childExit
  by_cases hc : st.child = true
  · rw [if_pos hc]
    obtain ⟨c, hcs, hcr, hcount, hids⟩ := h.1 hc
    rw [hcs]
    refine ⟨?_, ?_, ?_⟩
    · intro hfalse
      exact absurd hfalse (by simp)
    · intro _
      rw [countRunning_eq_zero_iff]
      intro r2 hr2
      obtain ⟨r, hrmem, hreq⟩ := List.mem_map.mp hr2
      by_cases hid : r.id = c.id
      · rw [if_pos hid] at hreq
        rw [← hreq]
        exact exitStatus_ne_running code sig
      · rw [if_neg hid] at hreq
        intro hrun
        exact hid (hids r hrmem (hreq ▸ hrun))
    · intro r2 hr2
      obtain ⟨r, hrmem, hreq⟩ := List.mem_map.mp hr2
      by_cases hid : r.id = c.id
      · rw [if_pos hid] at hreq
        rw [← hreq]
        simp [exitStatus_ne_running code sig]
      · rw [if_neg hid] at hreq
        rw [← hreq]
        exact h.2.2 r hrmem
  · rw [if_neg hc]; exact h

theorem supInv_event (cfg : SupConfig) (st : SupState) (e : SupEvent) (h : SupInv st) :
    SupInv (applyEvent cfg st e) := by
  cases e with
  | start g mi wd ci now => exact supInv_start cfg st g mi wd ci now h
  | exit code sig now => exact supInv_exit st code sig now h

theorem supInv_events (cfg : SupConfig) (es : List SupEvent) :
    ∀ st : SupState, SupInv st → SupInv (applyEvents cfg st es) := by
  induction es with
  | nil => intro st h; exact h
  | cons e es ih =>
    intro st h
    exact ih (applyEvent cfg st e) (supInv_event cfg st e h)

theorem broadcast_foldl_buffer (ls : List String) :
    ∀ st : BState, (ls.foldl broadcast st).buffer = st.buffer ++ ls := by
  induction ls with
  | nil => intro st; simp
  | cons l ls ih =>
    intro st
    rw [List.foldl_cons, ih]
    simp [broadcast]

theorem clientView_broadcast (st : BState) (l : String) (cid : Nat) :
    clientView (broadcast st l) cid = (clientView st cid).map (fun v => v ++ [l]) := by
  unfold clientView broadcast
  rw [List.find?_map]
  rw [Option.map_map, Option.map_map]
  rfl

theorem clientView_foldl (ls : List String) :
    ∀ (st : BState) (cid : Nat) (v : List String), clientView st cid = some v →
      clientView (ls.foldl broadcast st) cid = some (v ++ ls) := by
  induction ls with
  | nil => intro st cid v h; simpa using h
  | cons l ls ih =>
    intro st cid v h
    rw [List.foldl_cons]
    have h2 : clientView (broadcast st l) cid = some (v ++ [l]) := by
      rw [clientView_broadcast, h]
      rfl
    rw [ih (broadcast st l) cid (v ++ [l]) h2]
    simp

theorem clientView_subscribe_fresh (st : BState) (cid : Nat)
    (hfresh : ∀ c ∈ st.clients, c.1 ≠ cid) :
    clientView (subscribeClient st cid) cid = some st.buffer := by
  unfold clientView subscribeClient
  rw [List.find?_append]
  have h1 : st.clients.find? (fun c => c.1 == cid) = none := by
    rw [List.find?_eq_none]
    intro c hc
    simp [hfresh c hc]
  rw [h1]
  simp [List.find?_cons]

theorem broadcast_clients_fst (st : BState) (l : String) :
    (broadcast st l).clients.map Prod.fst = st.clients.map Prod.fst := by
  simp [broadcast]

theorem foldl_broadcast_fresh (ls : List String) :
    ∀ (st : BState) (cid : Nat), (∀ c ∈ st.clients, c.1 ≠ cid) →
      ∀ c ∈ (ls.foldl broadcast st).clients, c.1 ≠ cid := by
  induction ls with
  | nil => intro st cid h; exact h
  | cons l ls ih =>
    intro st cid h
    rw [List.foldl_cons]
    refine ih (broadcast st l) cid ?_
    intro c hc
    obtain ⟨c0, hc0, hceq⟩ := List.mem_map.mp hc
    rw [← hceq]
    exact h c0 hc0

/-! ## Claims -/

/-- C1, counterexample.  The claim says the loop stops (normal completion)
after a build turn if and only if the plan artifact contains the literal
substring `STATUS: DONE`.  With plan content `STATUS:DONE` (no space) the
engine stops after the first build turn — the regex `STATUS:\s*DONE\b`
matches with zero whitespace — even though the literal substring
`STATUS: DONE` does not occur in the content, so the claimed equivalence is
false. -/
theorem c1_counterexample :
    (runMain 0 ⟨none, fun _ => none, fun _ => some "STATUS:DONE"⟩ none 2).exit
        = LoopExit.done ∧
    (runMain 0 ⟨none, fun _ => none, fun _ => some "STATUS:DONE"⟩ none 2).state.turns = 1 ∧
    containsSeq "STATUS: DONE".data "STATUS:DONE".data = false := by
  decide

/-- C1, amended.  After a build turn (whenever the iteration cap does not
fire), the loop stops with normal completion — exactly one further build turn
was executed — if and only if the plan artifact content at that moment
(an absent file read as empty) matches `STATUS:` followed by zero or more
JS-whitespace characters and then `DONE` at a word boundary, i.e. the regex
`STATUS:\s*DONE\b`; any other content, including `STATUS: READY`, empty
content, or `STATUS: DONE` followed immediately by a word character, means
not done and the loop continues. -/
theorem c1_amended_stop_iff_marker (mi : Int) (env : LoopEnv) (fuel : Nat) (st : LoopState)
    (hcap : ¬(0 < mi ∧ mi ≤ (st.iter : Int))) :
    ((loopGo mi env (fuel + 1) st).exit = LoopExit.done ∧
      (loopGo mi env (fuel + 1) st).state.turns = st.turns + 1)
    ↔ SpecDoneMarker (planRead (env.plans st.turns)) := by
  rw [loopGo, if_neg hcap]
  by_cases hdone : planIsDone (planRead (env.plans st.turns)) = true
  · rw [if_pos hdone]
    exact ⟨fun _ => (planIsDone_iff_SpecDoneMarker _).mp hdone, fun _ => ⟨rfl, rfl⟩⟩
  · rw [if_neg hdone]
    constructor
    · rintro ⟨hd, ht⟩
      have h2 := loopGo_done_turns mi env fuel (contState env st) hd
      rw [contState_turns, ht] at h2
      exact absurd h2 (by omega)
    · intro hm
      exact absurd ((planIsDone_iff_SpecDoneMarker _).mpr hm) hdone

/-- C1 witness: instantiating the amended theorem on plan content
`STATUS: DONE` at the initial loop state. -/
theorem c1_amended_stop_iff_marker_w : SpecDoneMarker (planRead (some "STATUS: DONE")) :=
  (c1_amended_stop_iff_marker 0 ⟨none, fun _ => none, fun _ => some "STATUS: DONE"⟩ 0
    ⟨0, 0, 0, none, [], []⟩ (by decide)).mp ⟨by decide, by decide⟩

/-- C2, counterexample.  The claim extends the at-most-one-`running`-record
invariant across supervisor restarts.  The code never repairs stale records
at boot: start a run (one `running` record is persisted), restart the
supervisor before any child-exit event (the in-memory state is lost, the
durable registry survives, the old record is never finalized), start again —
the registry document now holds two `running` records. -/
theorem c2_counterexample :
    countRunning ((applyEvents ⟨[47], [47, 115]⟩
        (restartSup (applyEvents ⟨[47], [47, 115]⟩ (initState [[47]])
          [SupEvent.start "g" 0 none false 0]))
        [SupEvent.start "g" 0 none false 0]).registry) = 2 := by
  decide

/-- C2, amended.  Within a single supervisor instance — any sequence of
`start` calls and child-exit events applied to a freshly constructed server,
with no restart — the registry document always holds at most one record with
status `running`. -/
theorem c2_amended_at_most_one_running (cfg : SupConfig) (dirs0 : List (List Nat))
    (events : List SupEvent) :
    countRunning ((applyEvents cfg (initState dirs0) events).registry) ≤ 1 := by
  have h := supInv_events cfg events (initState dirs0) (supInv_init dirs0)
  by_cases hc : (applyEvents cfg (initState dirs0) events).child = true
  · obtain ⟨c, -, -, hcount, -⟩ := h.1 hc
    omega
  · have h0 := h.2.1 (by simpa using hc)
    omega

/-- C3.  For every `maxIterations = n > 0`, if the plan artifact never
matches the completion marker, the engine executes exactly `n` build turns —
no more — then emits the `Reached max iterations: n` message and terminates
(the `maxedOut` break).  With `n = 2` this gives exactly 2 build turns and
never a 3rd. -/
theorem c3_exactly_max_iterations_turns (n : Nat) (env : LoopEnv) (initFile : Option String)
    (fuel : Nat) (hn : 0 < n)
    (hnd : ∀ k, planIsDone (planRead (env.plans k)) = false) (hfuel : n < fuel) :
    (runMain (n : Int) env initFile fuel).exit = LoopExit.maxedOut ∧
    (runMain (n : Int) env initFile fuel).state.turns = n ∧
    ("Reached max iterations: " ++ toString (n : Int))
      ∈ (runMain (n : Int) env initFile fuel).state.out := by
  unfold runMain
  have h := loopGo_maxedOut n env hn hnd fuel
    ⟨0, 0, 0, writeHandle initFile env.planResult, [], threadOut env.planResult⟩
    (Nat.zero_le n) (by simpa using hfuel)
  refine ⟨h.1, ?_, h.2.2⟩
  rw [h.2.1]
  simp

/-- C3 witness: `maxIterations = 2`, plan stuck at `STATUS: READY`, exactly
2 build turns and the maxed-out exit. -/
theorem c3_exactly_max_iterations_turns_w :
    (runMain ((2 : Nat) : Int) ⟨none, fun _ => none, fun _ => some "STATUS: READY"⟩ none 3).exit
        = LoopExit.maxedOut ∧
    (runMain ((2 : Nat) : Int) ⟨none, fun _ => none, fun _ => some "STATUS: READY"⟩
        none 3).state.turns = 2 :=
  ⟨(c3_exactly_max_iterations_turns 2 ⟨none, fun _ => none, fun _ => some "STATUS: READY"⟩
      none 3 (by decide)
      (fun k => by show planIsDone (planRead (some "STATUS: READY")) = false; decide)
      (by decide)).1,
    (c3_exactly_max_iterations_turns 2 ⟨none, fun _ => none, fun _ => some "STATUS: READY"⟩
      none 3 (by decide)
      (fun k => by show planIsDone (planRead (some "STATUS: READY")) = false; decide)
      (by decide)).2.1⟩

/-- C4.  If the plan artifact already matches the completion marker before
the first build iteration, the engine still performs exactly one build turn
— exactly one write of `build_out.log`, not zero — and then terminates with
normal completion, because the completion check runs only after a build
turn.  This holds for every `maxIterations`. -/
theorem c4_one_turn_even_if_already_done (mi : Int) (env : LoopEnv) (initFile : Option String)
    (fuel : Nat) (h : planIsDone (planRead (env.plans 0)) = true) :
    (runMain mi env initFile (fuel + 1)).exit = LoopExit.done ∧
    (runMain mi env initFile (fuel + 1)).state.turns = 1 ∧
    (runMain mi env initFile (fuel + 1)).state.buildOutWrites = 1 := by
  unfold runMain
  rw [loopGo, if_neg (by rintro ⟨h1, h2⟩; omega : ¬(0 < mi ∧ mi ≤ ((0 : Nat) : Int)))]
  rw [if_pos h]
  exact ⟨rfl, rfl, rfl⟩

/-- C4 witness: a plan that says `STATUS: DONE` from the beginning still
costs one build turn. -/
theorem c4_one_turn_even_if_already_done_w :
    (runMain 5 ⟨none, fun _ => none, fun _ => some "STATUS: DONE"⟩ none 3).exit
        = LoopExit.done ∧
    (runMain 5 ⟨none, fun _ => none, fun _ => some "STATUS: DONE"⟩ none 3).state.turns = 1 ∧
    (runMain 5 ⟨none, fun _ => none, fun _ => some "STATUS: DONE"⟩ none 3).state.buildOutWrites
        = 1 :=
  c4_one_turn_even_if_already_done 5 ⟨none, fun _ => none, fun _ => some "STATUS: DONE"⟩
    none 2 (by decide)

/-- C10.  For every `maxIterations ≤ 0` — including the negative values the
argument parser passes through unrejected (`Number(value) || 0` performs no
sign check, which is why the model takes `mi : Int`) — the iteration-cap
branch never fires: the loop never exits `maxedOut`, an exit with normal
completion happens only when the plan artifact matched the completion marker
after the last executed turn, and if the marker never appears the loop runs
unboundedly (it exhausts any finite fuel). -/
theorem c10_nonpositive_budget_unbounded (mi : Int) (env : LoopEnv) (fuel : Nat)
    (st : LoopState) (hmi : mi ≤ 0) :
    (loopGo mi env fuel st).exit ≠ LoopExit.maxedOut ∧
    ((loopGo mi env fuel st).exit = LoopExit.done →
      planIsDone (planRead (env.plans ((loopGo mi env fuel st).state.turns - 1))) = true) ∧
    ((∀ k, planIsDone (planRead (env.plans k)) = false) →
      (loopGo mi env fuel st).exit = LoopExit.fuelOut) :=
  loopGo_unbounded mi env hmi fuel st

/-- C10 witness: with `maxIterations = -3` the cap never fires. -/
theorem c10_nonpositive_budget_unbounded_w :
    (loopGo (-3) ⟨none, fun _ => none, fun _ => some "STATUS: READY"⟩ 4
        ⟨0, 0, 0, none, [], []⟩).exit ≠ LoopExit.maxedOut :=
  (c10_nonpositive_budget_unbounded (-3) ⟨none, fun _ => none, fun _ => some "STATUS: READY"⟩
    4 ⟨0, 0, 0, none, [], []⟩ (by decide)).1

/-- C5.  A subscriber that connects after `pre` has been published (and
before any further publish) is replayed exactly the buffer `pre`; each line
of `post` published afterwards is then delivered to it exactly once in
publish order: its delivered stream is exactly `pre ++ post`, which also
equals the full buffer — a gap-free, duplication-free, prefix-consistent
view.  `cs` are the previously connected clients; the subscriber's id is
fresh among them (`randomUUID`). -/
theorem c5_subscriber_gap_free_view (cs : List (Nat × List String)) (pre post : List String)
    (cid : Nat) (hfresh : ∀ c ∈ cs, c.1 ≠ cid) :
    clientView (post.foldl broadcast (subscribeClient (pre.foldl broadcast ⟨[], cs⟩) cid)) cid
        = some (pre ++ post) ∧
    (pre.foldl broadcast (⟨[], cs⟩ : BState)).buffer = pre ∧
    (post.foldl broadcast (subscribeClient (pre.foldl broadcast ⟨[], cs⟩) cid)).buffer
        = pre ++ post := by
  have hb : (pre.foldl broadcast (⟨[], cs⟩ : BState)).buffer = pre := by
    rw [broadcast_foldl_buffer]
    simp
  have hfresh2 := foldl_broadcast_fresh pre ⟨[], cs⟩ cid hfresh
  have hsub := clientView_subscribe_fresh (pre.foldl broadcast ⟨[], cs⟩) cid hfresh2
  rw [hb] at hsub
  refine ⟨clientView_foldl post _ cid pre hsub, hb, ?_⟩
  rw [broadcast_foldl_buffer]
  rw [show (subscribeClient (pre.foldl broadcast ⟨[], cs⟩) cid).buffer
      = (pre.foldl broadcast (⟨[], cs⟩ : BState)).buffer from rfl, hb]

/-- C5 witness: one pre-existing client, two lines before subscribing, one
line after. -/
theorem c5_subscriber_gap_free_view_w :
    clientView ((["c"]).foldl broadcast
        (subscribeClient ((["a", "b"]).foldl broadcast ⟨[], [(1, [])]⟩) 7)) 7
      = some (["a", "b"] ++ ["c"]) :=
  (c5_subscriber_gap_free_view [(1, [])] ["a", "b"] ["c"] 7 (by decide)).1

/-- C6.  On child exit in any reachable supervisor state with an active
child and current session `c`: the active-child reference is cleared (so a
new start is allowed — a subsequent `start` can no longer fail with
`AlreadyRunning`), the current record gets the terminal status determined by
the exit — code `0` gives `succeeded`, otherwise signal `SIGTERM` gives
`stopped`, any other exit gives `failed` — with `endedAt` stamped, the
record is persisted into the registry document by matching on the session
id, and afterwards every record in the registry has `endedAt` set if and
only if its status is not `running`. -/
theorem c6_exit_finalizes_record (cfg : SupConfig) (dirs0 : List (List Nat))
    (events : List SupEvent) (code : Option Int) (sig : Option String) (now : Nat)
    (c : SessionRecord)
    (hchild : (applyEvents cfg (initState dirs0) events).child = true)
    (hcur : (applyEvents cfg (initState dirs0) events).currentSession = some c) :
    (childExit (applyEvents cfg (initState dirs0) events) code sig now).child = false ∧
    (childExit (applyEvents cfg (initState dirs0) events) code sig now).currentSession
        = some { c with status := exitStatus code sig, endedAt := some now } ∧
    (childExit (applyEvents cfg (initState dirs0) events) code sig now).registry
        = (applyEvents cfg (initState dirs0) events).registry.map
            (fun r => if r.id = c.id then
              { c with status := exitStatus code sig, endedAt := some now } else r) ∧
    (code = some 0 → exitStatus code sig = SessionStatus.succeeded) ∧
    (code ≠ some 0 → sig = some "SIGTERM" → exitStatus code sig = SessionStatus.stopped) ∧
    (code ≠ some 0 → sig ≠ some "SIGTERM" → exitStatus code sig = SessionStatus.failed) ∧
    (∀ r ∈ (childExit (applyEvents cfg (initState dirs0) events) code sig now).registry,
      r.endedAt.isSome = true ↔ r.status ≠ SessionStatus.running) ∧
    (∀ (g2 : String) (mi2 : Int) (wd2 : Option (List Nat)) (ci2 : Bool) (now2 : Nat),
      (startSession cfg (childExit (applyEvents cfg (initState dirs0) events) code sig now)
        g2 mi2 wd2 ci2 now2).1 ≠ some StartError.alreadyRunning) := by
  have hInv := supInv_events cfg events (initState dirs0) (supInv_init dirs0)
  have hiff := (supInv_exit (applyEvents cfg (initState dirs0) events) code sig now hInv).2.2
  have hcf : (childExit (applyEvents cfg (initState dirs0) events) code sig now).child
      = false := by
    rw [childExit, if_pos hchild, hcur]
  refine ⟨hcf, ?_, ?_, ?_, ?_, ?_, hiff, ?_⟩
  · rw [childExit, if_pos hchild, hcur]
  · rw [childExit, if_pos hchild, hcur]
  · intro h; rw [exitStatus, if_pos h]
  · intro h1 h2; rw [exitStatus, if_neg h1, if_pos h2]
  · intro h1 h2; rw [exitStatus, if_neg h1, if_neg h2]
  · intro g2 mi2 wd2 ci2 now2 hcontra
    rw [startSession, if_neg (by simp [hcf])] at hcontra
    split at hcontra
    · simp at hcontra
    split at hcontra
    · simp at hcontra
    · simp at hcontra

/-- C6 witness: after one started run, a clean exit with code 0 clears the
active child. -/
theorem c6_exit_finalizes_record_w :
    (childExit (applyEvents ⟨[47], [47, 115]⟩ (initState [[47]])
        [SupEvent.start "g" 0 none false 0]) (some 0) none 7).child = false :=
  (c6_exit_finalizes_record ⟨[47], [47, 115]⟩ [[47]] [SupEvent.start "g" 0 none false 0]
    (some 0) none 7 ⟨0, "g", 0, [47], [47, 115, 47, 76, 119], 0, none, .running, none⟩
    (by decide) (by decide)).1

/-- C7.  `start` is atomic on error: with a child active it fails with
`AlreadyRunning` and the state — registry, log buffer, id counter, active
child, file system — is returned untouched; with no child active, a
non-existing resolved workdir and `createIfMissing = false` it fails with
`WorkdirNotFound`, again leaving the state untouched.  A successful `start`
appends exactly one fresh `running` record, consumes exactly one new id,
resets the log buffer to the three startup lines, and a second `start`
before any child exit fails with `AlreadyRunning`, changing nothing — so the
registry gained exactly one record. -/
theorem c7_start_atomic_on_error (cfg : SupConfig) (st : SupState) (g : String) (mi : Int)
    (wd : Option (List Nat)) (ci : Bool) (now : Nat) :
    (st.child = true → startSession cfg st g mi wd ci now
        = (some StartError.alreadyRunning, st)) ∧
    (st.child = false → ¬(normalizeWorkdir cfg wd ∈ st.dirs) → ci = false →
      startSession cfg st g mi wd ci now = (some StartError.workdirNotFound, st)) ∧
    (∀ st2, startSession cfg st g mi wd ci now = (none, st2) →
      st2.child = true ∧
      st2.registry = st.registry ++ [startRecord cfg st g mi wd now] ∧
      st2.nextId = st.nextId + 1 ∧
      st2.bstate.buffer = [startRunLine, workdirLine (normalizeWorkdir cfg wd),
        stateDirLine (stateDirFor cfg.stateBase (normalizeWorkdir cfg wd))] ∧
      (∀ (g2 : String) (mi2 : Int) (wd2 : Option (List Nat)) (ci2 : Bool) (now2 : Nat),
        startSession cfg st2 g2 mi2 wd2 ci2 now2
          = (some StartError.alreadyRunning, st2))) := by
  refine ⟨?_, ?_, ?_⟩
  · intro hc
    rw [startSession, if_pos hc]
  · intro hc hmem hci
    rw [startSession, if_neg (by simp [hc]), if_neg hmem, if_neg (by simp [hci])]
  · intro st2 h
    by_cases hc : st.child = true
    · rw [startSession, if_pos hc] at h
      exact absurd h (by simp)
    · rw [startSession, if_neg hc] at h
      by_cases hmem : normalizeWorkdir cfg wd ∈ st.dirs
      · rw [if_pos hmem] at h
        injection h with h1 h2
        subst h2
        refine ⟨rfl, rfl, rfl, rfl, ?_⟩
        intro g2 mi2 wd2 ci2 now2
        rw [startSession, if_pos (startOkState_child cfg st g mi wd now st.dirs)]
      · rw [if_neg hmem] at h
        by_cases hci : ci = true
        · rw [if_pos hci] at h
          injection h with h1 h2
          subst h2
          refine ⟨rfl, rfl, rfl, rfl, ?_⟩
          intro g2 mi2 wd2 ci2 now2
          rw [startSession, if_pos (startOkState_child cfg st g mi wd now
            (normalizeWorkdir cfg wd :: st.dirs))]
        · rw [if_neg hci] at h
          exact absurd h (by simp)

/-- C7 witness: a busy supervisor refuses with `AlreadyRunning`; a missing
workdir with `createIfMissing = false` refuses with `WorkdirNotFound`; both
leave the state exactly as it was. -/
theorem c7_start_atomic_on_error_w :
    startSession ⟨[47], [47, 115]⟩ ⟨true, none, [], ⟨[], []⟩, [[47]], 0⟩ "g" 0 none false 0
        = (some StartError.alreadyRunning, ⟨true, none, [], ⟨[], []⟩, [[47]], 0⟩) ∧
    startSession ⟨[47], [47, 115]⟩ ⟨false, none, [], ⟨[], []⟩, [], 0⟩ "g" 0 none false 0
        = (some StartError.workdirNotFound, ⟨false, none, [], ⟨[], []⟩, [], 0⟩) :=
  ⟨(c7_start_atomic_on_error ⟨[47], [47, 115]⟩ ⟨true, none, [], ⟨[], []⟩, [[47]], 0⟩
      "g" 0 none false 0).1 rfl,
    (c7_start_atomic_on_error ⟨[47], [47, 115]⟩ ⟨false, none, [], ⟨[], []⟩, [], 0⟩
      "g" 0 none false 0).2.1 rfl (by decide) rfl⟩

/-- C8.  The `stateDir` derivation is deterministic and reversible: over
byte paths (all bytes < 256), two workdirs map to the same `stateDir` under
the same state base exactly when they are equal — the base64url encoding is
injective (witnessed by the explicit decoder) — and every successful
`startSession` computes the record's `stateDir` as this pure function of the
resolved workdir alone, so two start calls with the same resolved workdir
(whatever their goal, budget or timestamps) compute the identical
`stateDir`. -/
theorem c8_stateDir_deterministic_injective :
    (∀ (base w1 w2 : List Nat), (∀ b ∈ w1, b < 256) → (∀ b ∈ w2, b < 256) →
      (stateDirFor base w1 = stateDirFor base w2 ↔ w1 = w2)) ∧
    (∀ (cfg : SupConfig) (st : SupState) (g : String) (mi : Int) (wd : Option (List Nat))
        (ci : Bool) (now : Nat) (st2 : SupState),
      startSession cfg st g mi wd ci now = (none, st2) →
      ∃ r, st2.currentSession = some r ∧
        r.stateDir = stateDirFor cfg.stateBase (normalizeWorkdir cfg wd)) := by
  constructor
  · intro base w1 w2 hb1 hb2
    constructor
    · intro h
      unfold stateDirFor at h
      have h2 := List.append_cancel_left h
      injection h2 with h3 h4
      exact encodeB64_inj w1 w2 hb1 hb2 h4
    · rintro rfl
      rfl
  · intro cfg st g mi wd ci now st2 h
    by_cases hc : st.child = true
    · rw [startSession, if_pos hc] at h
      exact absurd h (by simp)
    · rw [startSession, if_neg hc] at h
      by_cases hmem : normalizeWorkdir cfg wd ∈ st.dirs
      · rw [if_pos hmem] at h
        injection h with h1 h2
        subst h2
        exact ⟨startRecord cfg st g mi wd now, rfl, rfl⟩
      · rw [if_neg hmem] at h
        by_cases hci : ci = true
        · rw [if_pos hci] at h
          injection h with h1 h2
          subst h2
          exact ⟨startRecord cfg st g mi wd now, rfl, rfl⟩
        · rw [if_neg hci] at h
          exact absurd h (by simp)

/-- C8 witness: two distinct one-byte workdirs get distinct state
directories. -/
theorem c8_stateDir_deterministic_injective_w :
    stateDirFor [] [1] ≠ stateDirFor [] [2] :=
  fun h => absurd ((c8_stateDir_deterministic_injective.1 [] [1] [2]
    (by decide) (by decide)).mp h) (by decide)

/-- C9, counterexample.  The claim says the next build turn resumes from the
most recent *non-null* handle.  The code's write guard is JS truthiness
(`if (buildResult.threadId)`), which also rejects the empty string: when the
plan turn returns handle `"abc"` and build turn 0 returns the non-null
handle `""`, the empty handle is not persisted, so build turn 1 resumes from
`"abc"` — not from the most recent non-null handle, which is `""`
(`lastSome` of the handles returned before turn 1, plan turn included). -/
theorem c9_counterexample :
    (runMain 2 ⟨some "abc", fun k => if k == 0 then some "" else none, fun _ => none⟩
        none 3).state.handlesUsed.get? 1 = some (some "abc") ∧
    lastSome [some "abc",
        (fun k => if k == 0 then some "" else none : Nat → Option String) 0]
      = some "" ∧
    (some "abc" : Option String) ≠ some "" := by
  decide

/-- C9, amended.  The engine writes the handle file only when a turn returns
a truthy handle — non-null *and* non-empty ( `writeHandle file none = file`
and `writeHandle file (some "") = file`) — so a persisted handle is never
erased or blanked by a later handle-less turn: once the post-plan file
content is `some t` the file stays `some _` forever.  The file always holds
the most recent truthy handle (`lastTruthy`, falling back to the post-plan
content), and build turn `k` resumes from `readHandle` of exactly that
value: its trimmed content when the trim is non-empty, else no handle. -/
theorem c9_handle_written_only_when_truthy (mi : Int) (env : LoopEnv)
    (initFile : Option String) (fuel : Nat) :
    (runMain mi env initFile fuel).state.threadFile
        = lastTruthy (writeHandle initFile env.planResult)
            (resultsList env.buildResults (runMain mi env initFile fuel).state.turns) ∧
    (∀ k, k < (runMain mi env initFile fuel).state.turns →
      (runMain mi env initFile fuel).state.handlesUsed.get? k
        = some (readHandle (lastTruthy (writeHandle initFile env.planResult)
            (resultsList env.buildResults k)))) ∧
    (∀ file : Option String, writeHandle file none = file) ∧
    (∀ file : Option String, writeHandle file (some "") = file) ∧
    (∀ t : String, writeHandle initFile env.planResult = some t →
      ∃ u, (runMain mi env initFile fuel).state.threadFile = some u) := by
  have h := loopGo_handles mi env (writeHandle initFile env.planResult) fuel
    ⟨0, 0, 0, writeHandle initFile env.planResult, [], threadOut env.planResult⟩
    rfl rfl (fun k hk => absurd hk (Nat.not_lt_zero k))
  refine ⟨?_, ?_, fun file => rfl, fun file => rfl, ?_⟩
  · rw [runMain, h.1, foldFile_eq_lastTruthy]
  · intro k hk
    rw [runMain] at hk ⊢
    rw [h.2.2 k hk, foldFile_eq_lastTruthy]
  · intro t ht
    rw [runMain, h.1, foldFile_eq_lastTruthy]
    exact lastTruthy_isSome (writeHandle initFile env.planResult) _ t ht

/-- C9 witness: a handle-less build turn leaves the persisted plan-turn
handle in place. -/
theorem c9_handle_written_only_when_truthy_w :
    (runMain 1 ⟨some "abc", fun _ => none, fun _ => none⟩ none 2).state.threadFile
      = some "abc" :=
  ((c9_handle_written_only_when_truthy 1 ⟨some "abc", fun _ => none, fun _ => none⟩
    none 2).1).trans (by decide)
